import Mathlib

/-!
Shallow embedding of the WeensyOS handout kernel core
(`kernels1/kernel.cc`) and proofs about the spec's claims.

Machine words are modelled as `Nat`; overflow does not occur in the
address ranges the kernel manipulates.  Fallible operations (fatal
assertions, panics) are modelled with `Option`: `none` means the
assertion fired and the machine halted.
-/

/-! ## Constants

`PROC_SIZE` is defined in `kernel.cc` itself.  The remaining constants
come from the kernel headers (`kernel.hh`, `x86-64.h`), which are not
part of this repository snapshot; they are modelled from the spec's
memory-layout description (kernel below 0x100000, console I/O window in
the 0xA0000 region, process windows of `PROC_SIZE` bytes starting at
`PROC_START_ADDR`) and the standard x86-64 values. -/

def PAGESIZE : Nat := 4096

def MEMSIZE_PHYSICAL : Nat := 0x200000

def CONSOLE_ADDR : Nat := 0xB8000

def NPROC : Nat := 16

def PROC_SIZE : Nat := 0x40000

def PROC_START_ADDR : Nat := 0x100000

def PTE_P : Nat := 1

def PTE_W : Nat := 2

def PTE_U : Nat := 4

def INT_PF : Nat := 14

def INT_IRQ : Nat := 32

def IRQ_TIMER : Nat := 0

/-! ## Page tables and byte memory -/

/-- One installed page-table entry: target physical address and
permission bits (`PTE_P`, `PTE_W`, `PTE_U`). -/
structure PageEntry where
  pa : Nat
  perms : Nat
deriving DecidableEq

/-- A page table, as the finished mapping it denotes: page-aligned
virtual address to installed entry (`none` when nothing was mapped). -/
def PageTable : Type := Nat → Option PageEntry

/-- Semantics of `vmiter(pt, va).map(pa, perms)`.  Modelled from the
spec: the virtual-memory mapper "installs or overwrites the mapping for
the cursor's current virtual page". -/
def ptmap (t : PageTable) (va pa perms : Nat) : PageTable :=
  fun x => if x = va then some ⟨pa, perms⟩ else t x

/-- Semantics of `memset(lo, v, len)` on byte memory. -/
def memsetFn (m : Nat → Nat) (lo len v : Nat) : Nat → Nat :=
  fun x => if lo ≤ x ∧ x < lo + len then v else m x

/-- Semantics of `memcpy(dst, data, data.length)` on byte memory. -/
def memcpyFn (m : Nat → Nat) (dst : Nat) (data : List Nat) : Nat → Nat :=
  fun x => if dst ≤ x ∧ x < dst + data.length then data.getD (x - dst) 0 else m x

/-- Increment one physical page's refcount (`++physpages[n].refcount`). -/
def bumpRef (r : Nat → Nat) (n : Nat) : Nat → Nat :=
  fun m => if m = n then r m + 1 else r m

/-! ## Process descriptors and kernel state -/

/-- Register snapshot (`regstate`), restricted to the fields the core
reads or writes. -/
structure Regstate where
  reg_rax : Nat
  reg_rdi : Nat
  reg_rsi : Nat
  reg_rip : Nat
  reg_rsp : Nat
  reg_intno : Nat
  reg_errcode : Nat
deriving DecidableEq

/-- Process lifecycle states (`P_FREE`, `P_RUNNABLE`, ...). -/
inductive PState where
  | P_FREE
  | P_RUNNABLE
  | P_FAULTED
  | P_BLOCKED
deriving DecidableEq

/-- Process descriptor (`struct proc`).  The `pagetable` field holds a
table identifier; identifier `0` denotes the kernel's page table. -/
structure Proc where
  pid : Nat
  state : PState
  regs : Regstate
  pagetable : Nat
deriving DecidableEq

/-- Identifier of `kernel_pagetable` in the `tables` map. -/
def kernel_pagetable : Nat := 0

/-- Kernel state touched by the modelled operations: the physical page
registry (`physpages`, refcount per page number), the bump allocator's
cursor (`next_alloc_pa`), all page tables, the process table, byte
memory and the tick counter. -/
structure KernelState where
  physpages : Nat → Nat
  next_alloc_pa : Nat
  tables : Nat → PageTable
  ptable : Nat → Proc
  mem : Nat → Nat
  ticks : Nat

/-! ## Pipe buffer (`pipebuf`, `pipebuf_len`) -/

/-- The kernel's one-byte pipe buffer state. -/
structure PipeState where
  pipebuf : Nat
  pipebuf_len : Nat
deriving DecidableEq

/-- Embedding of `syscall_pipewrite(buf, sz)`.  The caller's buffer is a
byte function; the result is the new pipe state and the returned
`ssize_t`. -/
def syscall_pipewrite (st : PipeState) (buf : Nat → Nat) (sz : Nat) : PipeState × Int :=
  if sz = 0 then
    (st, 0)
  else if st.pipebuf_len = 1 then
    (st, -1)
  else
    (⟨buf 0, 1⟩, 1)

/-- Embedding of `syscall_piperead(buf, sz)`.  The result is the new
pipe state, the returned `ssize_t`, and the byte stored into the
caller's `buf[0]` (when one is transferred). -/
def syscall_piperead (st : PipeState) (sz : Nat) : PipeState × Int × Option Nat :=
  if sz = 0 then
    (st, 0, none)
  else if st.pipebuf_len = 0 then
    (st, -1, none)
  else
    ({ st with pipebuf_len := 0 }, 1, some st.pipebuf)

/-! ## The allocate-page syscall handler -/

/-- Embedding of `syscall_page_alloc(addr)`: assert the containing
physical page is unowned (`none` models the fatal assertion), bump its
refcount, zero `PAGESIZE` bytes starting at `addr`, return 0.  Note the
handout handler touches no page table. -/
def syscall_page_alloc (st : KernelState) (addr : Nat) : Option (KernelState × Int) :=
  if st.physpages (addr / PAGESIZE) = 0 then
    some ({ st with
              physpages := bumpRef st.physpages (addr / PAGESIZE),
              mem := memsetFn st.mem addr PAGESIZE 0 }, 0)
  else
    none

/-- Default process descriptor used to build concrete states. -/
def procZero : Proc :=
  ⟨0, PState.P_FREE, ⟨0, 0, 0, 0, 0, 0, 0⟩, kernel_pagetable⟩

/-- A concrete kernel state: no page owned, empty page tables, zeroed
memory. -/
def stZero : KernelState :=
  ⟨fun _ => 0, 0, fun _ _ => none, fun _ => procZero, fun _ => 0, 0⟩

/-! ## kalloc -/

/-- Fuel bound for the `kalloc` scan loop: the cursor advances by
`PAGESIZE` each iteration, so this many iterations always reach
`MEMSIZE_PHYSICAL`. -/
def kallocFuel : Nat := MEMSIZE_PHYSICAL / PAGESIZE + 1

/-- The scan loop of `kalloc`: while the cursor is below
`MEMSIZE_PHYSICAL`, advance it a page at a time; the first allocatable
page with refcount 0 is claimed (refcount bumped, page filled with the
0xCC poison byte) and returned.  `allocatable` embeds
`allocatable_physical_address`, a kernel-header predicate kept abstract
here. -/
def kallocLoop (allocatable : Nat → Bool) : Nat → KernelState → Option Nat × KernelState
  | 0, st => (none, st)
  | fuel + 1, st =>
    if st.next_alloc_pa < MEMSIZE_PHYSICAL then
      if allocatable st.next_alloc_pa = true ∧
          st.physpages (st.next_alloc_pa / PAGESIZE) = 0 then
        (some st.next_alloc_pa,
         { st with
             next_alloc_pa := st.next_alloc_pa + PAGESIZE,
             physpages := bumpRef st.physpages (st.next_alloc_pa / PAGESIZE),
             mem := memsetFn st.mem st.next_alloc_pa PAGESIZE 0xCC })
      else
        kallocLoop allocatable fuel { st with next_alloc_pa := st.next_alloc_pa + PAGESIZE }
    else
      (none, st)

/-- Embedding of `kalloc(sz)`: `none` models a `nullptr` return. -/
def kalloc (allocatable : Nat → Bool) (st : KernelState) (sz : Nat) :
    Option Nat × KernelState :=
  if sz > PAGESIZE then
    (none, st)
  else
    kallocLoop allocatable kallocFuel st

/-! ## Kernel page-table initialization (`kernel_start`) -/

/-- Page-aligned virtual addresses below `MEMSIZE_PHYSICAL`, in the
order `kernel_start`'s loop visits them. -/
def kernelVAList : List Nat :=
  (List.range (MEMSIZE_PHYSICAL / PAGESIZE)).map (fun i => i * PAGESIZE)

/-- One iteration of the `kernel_start` mapping loop at virtual address
`va`: console page user-accessible, address 0 mapped with no
permissions, everything else present and writable. -/
def kernelStartMapStep (t : PageTable) (va : Nat) : PageTable :=
  if va = CONSOLE_ADDR then
    ptmap t va va (PTE_P ||| PTE_W ||| PTE_U)
  else if va ≠ 0 then
    ptmap t va va (PTE_P ||| PTE_W)
  else
    ptmap t va va 0

/-- The kernel page table produced by `kernel_start`'s
(re-)initialization loop, starting from an arbitrary prior table
`t0`. -/
def kernel_start_pagetable (t0 : PageTable) : PageTable :=
  kernelVAList.foldl kernelStartMapStep t0

/-! ## Process setup -/

/-- One loadable segment of a program image: virtual address, in-memory
size (`seg.size()`), and raw data bytes (`seg.data()`, of length
`seg.data_size()`). -/
structure Segment where
  va : Nat
  memsz : Nat
  data : List Nat
deriving DecidableEq

/-- A program image: loadable segments plus the entry point. -/
structure ProgramImage where
  segments : List Segment
  entry : Nat
deriving DecidableEq

/-- Embedding of `round_down(a, m)`. -/
def round_down (a m : Nat) : Nat := a / m * m

/-- The page-aligned addresses `a` visited by the inner loop of
`process_setup` for one segment: from `round_down(seg.va, PAGESIZE)` up
while `a < seg.va + seg.size()`, stepping by `PAGESIZE`. -/
def segPages (seg : Segment) : List Nat :=
  let lo := round_down seg.va PAGESIZE
  (List.range ((seg.va + seg.memsz - lo + (PAGESIZE - 1)) / PAGESIZE)).map
    (fun i => lo + i * PAGESIZE)

/-- All page addresses touched by the segment-mapping loops, in
visiting order. -/
def imagePages (pgm : ProgramImage) : List Nat :=
  (pgm.segments.map segPages).flatten

/-- Modelled from the spec: `init_process` (defined outside this
repository snapshot) resets the descriptor's register snapshot before
loading. -/
def init_process (p : Proc) : Proc :=
  { p with regs := ⟨0, 0, 0, 0, 0, 0, 0⟩ }

/-- The allocate-and-map loop of `process_setup`, over the flattened
list of touched page addresses: each address must lie in
`[first, last)` and its physical page must be unowned (fatal assertion
otherwise, modelled by `none`); then its refcount is bumped and it is
mapped user-writable, identity, into table `tid`. -/
def allocMapPages (first last tid : Nat) : List Nat → KernelState → Option KernelState
  | [], st => some st
  | a :: rest, st =>
    if first ≤ a ∧ a < last then
      if st.physpages (a / PAGESIZE) = 0 then
        allocMapPages first last tid rest
          { st with
              physpages := bumpRef st.physpages (a / PAGESIZE),
              tables := fun t =>
                if t = tid then ptmap (st.tables t) a a (PTE_P ||| PTE_W ||| PTE_U)
                else st.tables t }
      else none
    else none

/-- The copy loop of `process_setup`: for each segment,
`memset(seg.va, 0, seg.size())` then `memcpy(seg.va, seg.data(),
seg.data_size())`. -/
def copySegments (segs : List Segment) (m : Nat → Nat) : Nat → Nat :=
  segs.foldl (fun mm seg => memcpyFn (memsetFn mm seg.va seg.memsz 0) seg.va seg.data) m

/-- Update one descriptor in the process table. -/
def setProc (st : KernelState) (pid : Nat) (f : Proc → Proc) : KernelState :=
  { st with ptable := fun q => if q = pid then f (st.ptable q) else st.ptable q }

/-- Lower bound of process `pid`'s exclusive address window
(`first_addr` in `process_setup`). -/
def proc_first_addr (pid : Nat) : Nat := PROC_START_ADDR + (pid - 1) * PROC_SIZE

/-- Upper bound of process `pid`'s exclusive address window
(`last_addr` in `process_setup`). -/
def proc_last_addr (pid : Nat) : Nat := PROC_START_ADDR + pid * PROC_SIZE

/-- The tail of `process_setup` after the segment mapping loop: copy
segment bytes into place (zero, then copy the raw data), set the entry
point, allocate and map the stack page just below the window's top
(fatal assertion - `none` - when that page is owned), set the stack
pointer to the window's end, and finally mark the process runnable.
The mapping goes into `kernel_pagetable`, which `process_setup` stored
in the descriptor's `pagetable` field. -/
def process_setup_finish (st1 : KernelState) (pid : Nat) (pgm : ProgramImage) :
    Option KernelState :=
  let st2 := { st1 with mem := copySegments pgm.segments st1.mem }
  let st3 := setProc st2 pid (fun p => { p with regs := { p.regs with reg_rip := pgm.entry } })
  let stack_addr := proc_last_addr pid - PAGESIZE
  if st3.physpages (stack_addr / PAGESIZE) = 0 then
    let st4 :=
      { st3 with
          physpages := bumpRef st3.physpages (stack_addr / PAGESIZE),
          tables := fun t =>
            if t = kernel_pagetable then
              ptmap (st3.tables t) stack_addr stack_addr (PTE_P ||| PTE_W ||| PTE_U)
            else st3.tables t }
    let st5 := setProc st4 pid (fun p =>
      { p with regs := { p.regs with reg_rsp := stack_addr + PAGESIZE } })
    some (setProc st5 pid (fun p => { p with state := PState.P_RUNNABLE }))
  else none

/-- Embedding of `process_setup(pid, program_name)`; `none` models a
fired fatal assertion.  The descriptor's page table is set to
`kernel_pagetable` first, so the mapping loop targets exactly that
table. -/
def process_setup (st : KernelState) (pid : Nat) (pgm : ProgramImage) :
    Option KernelState :=
  let st0 := setProc st pid (fun p => { init_process p with pagetable := kernel_pagetable })
  match allocMapPages (proc_first_addr pid) (proc_last_addr pid) kernel_pagetable
      (imagePages pgm) st0 with
  | none => none
  | some st1 => process_setup_finish st1 pid pgm

/-! ## Exception dispatcher -/

/-- Where control goes when a kernel entry point finishes: halt the
machine (`panic`), fall into the scheduler, or resume a process
directly via `run`. -/
inductive Control where
  | halt
  | toScheduler
  | resume (pid : Nat)
deriving DecidableEq

/-- The user page-fault report printed by the dispatcher: process id,
faulting address, write-versus-read and protection-versus-missing-page
classification, faulting instruction pointer. -/
structure FaultReport where
  pid : Nat
  addr : Nat
  isWrite : Bool
  isProtection : Bool
  rip : Nat
deriving DecidableEq

/-- Store a register snapshot into one descriptor
(`current->regs = *regs`). -/
def setRegs (st : KernelState) (pid : Nat) (regs : Regstate) : KernelState :=
  setProc st pid (fun p => { p with regs := regs })

/-- The epilogue of `exception`: resume the current process directly
when it is still runnable, otherwise invoke the scheduler. -/
def exceptionEpilogue (st : KernelState) (curpid : Nat) : Control :=
  if (st.ptable curpid).state = PState.P_RUNNABLE then Control.resume curpid
  else Control.toScheduler

/-- Embedding of `exception(regs)` with `current = &ptable[curpid]` and
`rdcr2() = cr2`.  Returns the new kernel state, the control transfer,
and the fault report when one is printed. -/
def exception (st : KernelState) (curpid : Nat) (regs : Regstate) (cr2 : Nat) :
    KernelState × Control × Option FaultReport :=
  let st1 := setRegs st curpid regs
  if regs.reg_intno = INT_IRQ + IRQ_TIMER then
    ({ st1 with ticks := st1.ticks + 1 }, Control.toScheduler, none)
  else if regs.reg_intno = INT_PF then
    if regs.reg_errcode &&& PTE_U = 0 then
      (st1, Control.halt, none)
    else
      let report : FaultReport :=
        ⟨(st1.ptable curpid).pid, cr2,
         decide (regs.reg_errcode &&& PTE_W ≠ 0),
         decide (regs.reg_errcode &&& PTE_P ≠ 0),
         regs.reg_rip⟩
      let st2 := setProc st1 curpid (fun p => { p with state := PState.P_FAULTED })
      (st2, exceptionEpilogue st2 curpid, some report)
  else
    (st1, Control.halt, none)

/-! ## Scheduler and run -/

/-- The scan of `schedule`: step `pid = (pid + 1) % NPROC` and transfer
to the first `P_RUNNABLE` slot found.  `none` (fuel exhausted after a
full lap) models spinning forever: the process states cannot change
while the scheduler spins. -/
def scheduleFrom (st : KernelState) : Nat → Nat → Option Nat
  | 0, _ => none
  | fuel + 1, pid =>
    if (st.ptable ((pid + 1) % NPROC)).state = PState.P_RUNNABLE then
      some ((pid + 1) % NPROC)
    else
      scheduleFrom st fuel ((pid + 1) % NPROC)

/-- Embedding of `schedule()` starting from `current->pid = curpid`: the
slot the CPU is transferred to, or `none` when no slot is runnable. -/
def schedule (st : KernelState) (curpid : Nat) : Option Nat :=
  scheduleFrom st NPROC curpid

/-- Successive slots chosen by repeatedly invoking the scheduler,
starting after slot `k`. -/
def scheduleSeq (st : KernelState) (k : Nat) : Nat → List Nat
  | 0 => []
  | n + 1 =>
    match schedule st k with
    | some r => r :: scheduleSeq st r n
    | none => []

/-- Result of `run(p)`: either the entry assertion
`assert(p->state == P_RUNNABLE)` fires, or the CPU is transferred to
`p`. -/
inductive RunResult where
  | transfer (pid : Nat)
  | assertFail
deriving DecidableEq

/-- Embedding of `run(&ptable[p])`. -/
def run (st : KernelState) (p : Nat) : RunResult :=
  if (st.ptable p).state = PState.P_RUNNABLE then RunResult.transfer p
  else RunResult.assertFail

/-! ## Claim C2: pipe buffer semantics -/

/-- C2: a write of byte `b` with size ≥ 1 into an empty pipe returns 1
and a subsequent read with size ≥ 1 returns 1 and yields exactly `b`,
leaving the pipe empty; a write with size ≥ 1 while the pipe is full
returns -1 and changes nothing; a read with size ≥ 1 while the pipe is
empty returns -1 and changes nothing; size-0 writes and reads return 0
regardless of state; a successful write transfers exactly byte 0 of the
caller's buffer, discarding the rest of the request. -/
theorem pipe_roundtrip_spec (st : PipeState) (buf : Nat → Nat) (sz : Nat) :
    (1 ≤ sz → st.pipebuf_len = 0 →
      syscall_pipewrite st buf sz = (⟨buf 0, 1⟩, 1) ∧
      (∀ sz2, 1 ≤ sz2 →
        syscall_piperead (syscall_pipewrite st buf sz).1 sz2 =
          (⟨buf 0, 0⟩, 1, some (buf 0)))) ∧
    (1 ≤ sz → st.pipebuf_len = 1 → syscall_pipewrite st buf sz = (st, -1)) ∧
    (1 ≤ sz → st.pipebuf_len = 0 → syscall_piperead st sz = (st, -1, none)) ∧
    (syscall_pipewrite st buf 0 = (st, 0) ∧ syscall_piperead st 0 = (st, 0, none)) ∧
    (∀ buf2, buf2 0 = buf 0 → syscall_pipewrite st buf2 sz = syscall_pipewrite st buf sz) := by
  have hz : ∀ s : Nat, 1 ≤ s → s ≠ 0 := fun s hs => by omega
  refine ⟨?_, ?_, ?_, ⟨?_, ?_⟩, ?_⟩
  · intro h1 h2
    constructor
    · simp [syscall_pipewrite, hz sz h1, h2]
    · intro sz2 h3
      simp [syscall_pipewrite, syscall_piperead, hz sz h1, hz sz2 h3, h2]
  · intro h1 h2
    simp [syscall_pipewrite, hz sz h1, h2]
  · intro h1 h2
    simp [syscall_piperead, hz sz h1, h2]
  · simp [syscall_pipewrite]
  · simp [syscall_piperead]
  · intro buf2 h
    by_cases h0 : sz = 0 <;> simp [syscall_pipewrite, h0, h]

/-- Witness for C2 at a concrete instance: byte 65 written into the
empty pipe round-trips. -/
theorem pipe_roundtrip_spec_witness :
    syscall_pipewrite ⟨0, 0⟩ (fun _ => 65) 1 = (⟨65, 1⟩, 1) ∧
    syscall_piperead (syscall_pipewrite ⟨0, 0⟩ (fun _ => 65) 1).1 1 =
      (⟨65, 0⟩, 1, some 65) :=
  ⟨((pipe_roundtrip_spec ⟨0, 0⟩ (fun _ => 65) 1).1 (by decide) (by decide)).1,
   ((pipe_roundtrip_spec ⟨0, 0⟩ (fun _ => 65) 1).1 (by decide) (by decide)).2 1 (by decide)⟩

/-! ## Claim C1: the allocate-page syscall handler -/

/-- C1 counterexample: at a concrete state where the containing
physical page of address 0x100000 has refcount 0, the handler succeeds,
yet afterwards the calling process's page table still has no entry at
the requested address: the handout handler does not map the page
user-writable, contrary to the claim. -/
theorem page_alloc_no_mapping_counterexample :
    stZero.physpages (0x100000 / PAGESIZE) = 0 ∧
    (syscall_page_alloc stZero 0x100000).map
      (fun r => r.1.tables ((r.1.ptable 1).pagetable) 0x100000) = some none :=
  ⟨rfl, rfl⟩

/-- C1 (amended): with the containing page's refcount 0 the handler
bumps that refcount to 1, zeroes `PAGESIZE` bytes starting at `addr`,
returns 0, and leaves every page table, the process table, and the
allocation cursor unchanged; with refcount > 0 it halts with a fatal
assertion instead of returning an error code. -/
theorem syscall_page_alloc_spec (st : KernelState) (addr : Nat) :
    (st.physpages (addr / PAGESIZE) = 0 →
      ∃ st', syscall_page_alloc st addr = some (st', 0) ∧
        st'.physpages (addr / PAGESIZE) = 1 ∧
        (∀ x, addr ≤ x → x < addr + PAGESIZE → st'.mem x = 0) ∧
        st'.tables = st.tables ∧
        st'.ptable = st.ptable ∧
        st'.next_alloc_pa = st.next_alloc_pa) ∧
    (st.physpages (addr / PAGESIZE) ≠ 0 → syscall_page_alloc st addr = none) := by
  constructor
  · intro h
    refine ⟨{ st with physpages := bumpRef st.physpages (addr / PAGESIZE),
                      mem := memsetFn st.mem addr PAGESIZE 0 }, ?_, ?_, ?_, rfl, rfl, rfl⟩
    · simp [syscall_page_alloc, h]
    · simp [bumpRef, h]
    · intro x hx1 hx2
      simp [memsetFn, hx1, hx2]
  · intro h
    simp [syscall_page_alloc, h]

/-- Witness for the amended C1 at a concrete input. -/
theorem syscall_page_alloc_spec_witness :
    ∃ st', syscall_page_alloc stZero 0x100000 = some (st', 0) ∧
      st'.physpages (0x100000 / PAGESIZE) = 1 ∧
      (∀ x, 0x100000 ≤ x → x < 0x100000 + PAGESIZE → st'.mem x = 0) ∧
      st'.tables = stZero.tables ∧
      st'.ptable = stZero.ptable ∧
      st'.next_alloc_pa = stZero.next_alloc_pa :=
  (syscall_page_alloc_spec stZero 0x100000).1 rfl

/-! ## kalloc lemmas -/

/-- Soundness of the `kalloc` scan loop: a successful scan returns an
allocatable, unowned page at or past the cursor, and the resulting
state is the input state with the cursor advanced past the page, that
page's refcount bumped, and the page poisoned. -/
theorem kallocLoop_some (allocatable : Nat → Bool) :
    ∀ fuel st pa st', kallocLoop allocatable fuel st = (some pa, st') →
      allocatable pa = true ∧
      st.physpages (pa / PAGESIZE) = 0 ∧
      st.next_alloc_pa ≤ pa ∧
      pa < MEMSIZE_PHYSICAL ∧
      st' = { st with
                next_alloc_pa := pa + PAGESIZE,
                physpages := bumpRef st.physpages (pa / PAGESIZE),
                mem := memsetFn st.mem pa PAGESIZE 0xCC } := by
  intro fuel
  induction fuel with
  | zero =>
    intro st pa st' h
    simp [kallocLoop] at h
  | succ n ih =>
    intro st pa st' h
    unfold kallocLoop at h
    split_ifs at h with hlt hc
    · obtain ⟨h1, h2⟩ := Prod.mk.injEq .. ▸ h
      obtain rfl : pa = st.next_alloc_pa := (Option.some.injEq .. ▸ h1).symm
      exact ⟨hc.1, hc.2, le_rfl, hlt, h2.symm⟩
    · obtain ⟨g1, g2, g3, g4, g5⟩ := ih _ _ _ h
      exact ⟨g1, g2, by simp at g3; omega, g4, g5⟩
    · exact absurd h (by simp)

/-- Completeness of the `kalloc` scan loop failure: when no page at or
past the cursor is both allocatable and unowned, the scan returns
`none`. -/
theorem kallocLoop_none (allocatable : Nat → Bool) :
    ∀ fuel st,
      (∀ pa, st.next_alloc_pa ≤ pa → pa < MEMSIZE_PHYSICAL →
        allocatable pa = true → st.physpages (pa / PAGESIZE) ≠ 0) →
      (kallocLoop allocatable fuel st).1 = none := by
  intro fuel
  induction fuel with
  | zero =>
    intro st h
    simp [kallocLoop]
  | succ n ih =>
    intro st h
    unfold kallocLoop
    split_ifs with hlt hc
    · exact absurd hc.2 (h st.next_alloc_pa le_rfl hlt hc.1)
    · exact ih _ (fun pa h1 h2 h3 => h pa (by simp at h1; omega) h2 h3)
    · rfl

/-- First-hit behavior of the `kalloc` scan loop: when the page right
at the cursor is allocatable and unowned, the scan claims it
immediately. -/
theorem kallocLoop_first (allocatable : Nat → Bool) (fuel : Nat) (st : KernelState)
    (hf : 1 ≤ fuel) (hlt : st.next_alloc_pa < MEMSIZE_PHYSICAL)
    (ha : allocatable st.next_alloc_pa = true)
    (hz : st.physpages (st.next_alloc_pa / PAGESIZE) = 0) :
    (kallocLoop allocatable fuel st).1 = some st.next_alloc_pa := by
  obtain ⟨n, rfl⟩ : ∃ n, fuel = n + 1 := ⟨fuel - 1, by omega⟩
  unfold kallocLoop
  rw [if_pos hlt, if_pos ⟨ha, hz⟩]

/-! ## Claim C3: kalloc contract -/

/-- C3: oversized requests fail; every successful allocation returns an
allocatable page whose refcount was 0, sets that refcount to 1, fills
the whole page with the poison byte 0xCC, and advances the cursor past
the page; when no eligible page remains at or past the cursor the
allocator returns failure rather than raising; and two sequential
successful allocations return distinct pages. -/
theorem kalloc_spec (allocatable : Nat → Bool) (st : KernelState) (sz : Nat) :
    (PAGESIZE < sz → kalloc allocatable st sz = (none, st)) ∧
    (∀ pa st', kalloc allocatable st sz = (some pa, st') →
      allocatable pa = true ∧
      st.physpages (pa / PAGESIZE) = 0 ∧
      st'.physpages (pa / PAGESIZE) = 1 ∧
      (∀ x, pa ≤ x → x < pa + PAGESIZE → st'.mem x = 0xCC) ∧
      st.next_alloc_pa ≤ pa ∧
      st'.next_alloc_pa = pa + PAGESIZE) ∧
    ((∀ pa, st.next_alloc_pa ≤ pa → pa < MEMSIZE_PHYSICAL →
        allocatable pa = true → st.physpages (pa / PAGESIZE) ≠ 0) →
      (kalloc allocatable st sz).1 = none) ∧
    (∀ sz2 pa1 pa2 st1 st2,
      kalloc allocatable st sz = (some pa1, st1) →
      kalloc allocatable st1 sz2 = (some pa2, st2) → pa1 ≠ pa2) := by
  have hks : ∀ s : KernelState, ∀ z pa st', kalloc allocatable s z = (some pa, st') →
      allocatable pa = true ∧ s.physpages (pa / PAGESIZE) = 0 ∧
      s.next_alloc_pa ≤ pa ∧ pa < MEMSIZE_PHYSICAL ∧
      st' = { s with
                next_alloc_pa := pa + PAGESIZE,
                physpages := bumpRef s.physpages (pa / PAGESIZE),
                mem := memsetFn s.mem pa PAGESIZE 0xCC } := by
    intro s z pa st' h
    unfold kalloc at h
    split_ifs at h with hsz
    · exact absurd h (by simp)
    · exact kallocLoop_some allocatable kallocFuel s pa st' h
  refine ⟨?_, ?_, ?_, ?_⟩
  · intro hsz
    unfold kalloc
    rw [if_pos hsz]
  · intro pa st' h
    obtain ⟨g1, g2, g3, g4, g5⟩ := hks st sz pa st' h
    subst g5
    refine ⟨g1, g2, ?_, ?_, g3, rfl⟩
    · simp [bumpRef, g2]
    · intro x hx1 hx2
      simp [memsetFn, hx1, hx2]
  · intro h
    unfold kalloc
    split_ifs with hsz
    · rfl
    · exact kallocLoop_none allocatable kallocFuel st h
  · intro sz2 pa1 pa2 st1 st2 h1 h2
    obtain ⟨-, -, -, -, g5⟩ := hks st sz pa1 st1 h1
    obtain ⟨-, -, g3, -, -⟩ := hks st1 sz2 pa2 st2 h2
    subst g5
    simp only [] at g3
    have hp : 0 < PAGESIZE := by norm_num [PAGESIZE]
    omega

/-- Concrete allocatable-address predicate used for witnesses: pages at
or above `PROC_START_ADDR` are allocatable. -/
def allocEx : Nat → Bool := fun pa => decide (0x100000 ≤ pa)

set_option maxRecDepth 4000 in
/-- Witness for C3: from the all-free state, `kalloc` with a small size
returns the first allocatable page and sets its refcount to 1. -/
theorem kalloc_spec_witness :
    allocEx 0x100000 = true ∧
    stZero.physpages (0x100000 / PAGESIZE) = 0 ∧
    (kalloc allocEx stZero 100).2.physpages (0x100000 / PAGESIZE) = 1 :=
  ⟨by decide, rfl,
   ((kalloc_spec allocEx stZero 100).2.1 0x100000 (kalloc allocEx stZero 100).2
      (by rfl)).2.2.1⟩

/-! ## Claim C8: refcount 0 iff eligible for allocation -/

/-- C8: a page returned by `kalloc` is always allocatable, unowned
(refcount 0) and at or past the cursor (pages below the cursor are
never rescanned); and for an allocatable page sitting right at the
cursor, the allocator returns exactly that page if and only if its
refcount is 0. -/
theorem refcount_zero_iff_eligible (allocatable : Nat → Bool) (st : KernelState)
    (sz : Nat) (pa : Nat) :
    (∀ st', kalloc allocatable st sz = (some pa, st') →
      allocatable pa = true ∧ st.physpages (pa / PAGESIZE) = 0 ∧
      st.next_alloc_pa ≤ pa) ∧
    (sz ≤ PAGESIZE → st.next_alloc_pa = pa → pa < MEMSIZE_PHYSICAL →
      allocatable pa = true →
      ((kalloc allocatable st sz).1 = some pa ↔ st.physpages (pa / PAGESIZE) = 0)) := by
  constructor
  · intro st' h
    unfold kalloc at h
    split_ifs at h with hsz
    · exact absurd h (by simp)
    · obtain ⟨g1, g2, g3, -, -⟩ := kallocLoop_some allocatable kallocFuel st pa st' h
      exact ⟨g1, g2, g3⟩
  · intro hsz hcur hlt ha
    constructor
    · intro h
      have hpair : kalloc allocatable st sz =
          ((kalloc allocatable st sz).1, (kalloc allocatable st sz).2) := rfl
      rw [h] at hpair
      unfold kalloc at hpair
      split_ifs at hpair with hgt
      · omega
      · exact (kallocLoop_some allocatable kallocFuel st pa _ hpair).2.1
    · intro hz
      unfold kalloc
      rw [if_neg (by omega)]
      subst hcur
      exact kallocLoop_first allocatable kallocFuel st (by norm_num [kallocFuel]) hlt ha hz

/-- Witness for C8 at a concrete state: with the cursor at the first
allocatable page, the equivalence is exercised in both directions. -/
theorem refcount_zero_iff_eligible_witness :
    (kalloc allocEx { stZero with next_alloc_pa := 0x100000 } 4096).1 = some 0x100000 :=
  ((refcount_zero_iff_eligible allocEx { stZero with next_alloc_pa := 0x100000 }
      4096 0x100000).2 (by norm_num [PAGESIZE]) rfl (by norm_num [MEMSIZE_PHYSICAL])
      (by decide)).2 rfl

/-! ## Claim C7: the kernel page table after startup -/

/-- The entry `kernel_start`'s loop installs at virtual address `va`. -/
def kernelStartEntry (va : Nat) : PageEntry :=
  if va = CONSOLE_ADDR then ⟨va, PTE_P ||| PTE_W ||| PTE_U⟩
  else if va ≠ 0 then ⟨va, PTE_P ||| PTE_W⟩
  else ⟨va, 0⟩

/-- One loop iteration maps its own virtual address to
`kernelStartEntry`. -/
theorem kernelStartMapStep_self (t : PageTable) (va : Nat) :
    kernelStartMapStep t va va = some (kernelStartEntry va) := by
  unfold kernelStartMapStep kernelStartEntry ptmap
  split_ifs <;> simp

/-- One loop iteration leaves every other virtual address alone. -/
theorem kernelStartMapStep_other (t : PageTable) (va x : Nat) (h : x ≠ va) :
    kernelStartMapStep t va x = t x := by
  unfold kernelStartMapStep ptmap
  split_ifs <;> simp [h]

/-- Lookup after folding the `kernel_start` mapping loop over any
address list. -/
theorem foldl_kernelStart_lookup :
    ∀ (l : List Nat) (t0 : PageTable) (va : Nat),
      (l.foldl kernelStartMapStep t0) va =
        if va ∈ l then some (kernelStartEntry va) else t0 va := by
  intro l
  induction l with
  | nil => intro t0 va; simp
  | cons a l ih =>
    intro t0 va
    rw [List.foldl_cons, ih]
    by_cases hmem : va ∈ l
    · simp [hmem]
    · by_cases hva : va = a
      · subst hva
        simp [hmem, kernelStartMapStep_self]
      · simp [hmem, hva, kernelStartMapStep_other t0 a va hva]

/-- Page-aligned addresses below `MEMSIZE_PHYSICAL` are visited by the
`kernel_start` loop. -/
theorem mem_kernelVAList (va : Nat) (hal : va % PAGESIZE = 0)
    (hlt : va < MEMSIZE_PHYSICAL) : va ∈ kernelVAList := by
  simp only [kernelVAList, List.mem_map, List.mem_range]
  refine ⟨va / PAGESIZE, ?_, ?_⟩
  · simp only [PAGESIZE, MEMSIZE_PHYSICAL] at *
    omega
  · simp only [PAGESIZE] at *
    omega

/-- C7: after `kernel_start`'s loop, every page-aligned virtual address
below `MEMSIZE_PHYSICAL` is identity-mapped; address 0 carries no
permission bits, the console I/O page is present, writable and
user-accessible, and every other page is present and writable but not
user-accessible. -/
theorem kernel_start_pagetable_spec (t0 : PageTable) (va : Nat)
    (hal : va % PAGESIZE = 0) (hlt : va < MEMSIZE_PHYSICAL) :
    ∃ e, kernel_start_pagetable t0 va = some e ∧
      e.pa = va ∧
      (va = 0 → e.perms = 0) ∧
      (va = CONSOLE_ADDR →
        e.perms &&& PTE_P ≠ 0 ∧ e.perms &&& PTE_W ≠ 0 ∧ e.perms &&& PTE_U ≠ 0) ∧
      (va ≠ 0 → va ≠ CONSOLE_ADDR →
        e.perms &&& PTE_P ≠ 0 ∧ e.perms &&& PTE_W ≠ 0 ∧ e.perms &&& PTE_U = 0) := by
  refine ⟨kernelStartEntry va, ?_, ?_, ?_, ?_, ?_⟩
  · rw [kernel_start_pagetable, foldl_kernelStart_lookup,
      if_pos (mem_kernelVAList va hal hlt)]
  · unfold kernelStartEntry
    split_ifs <;> rfl
  · intro h
    subst h
    have : (0 : Nat) ≠ CONSOLE_ADDR := by norm_num [CONSOLE_ADDR]
    simp [kernelStartEntry, this]
  · intro h
    subst h
    simp only [kernelStartEntry, if_pos rfl]
    refine ⟨?_, ?_, ?_⟩ <;> decide
  · intro h1 h2
    simp only [kernelStartEntry, if_neg h2, if_pos h1]
    refine ⟨?_, ?_, ?_⟩ <;> decide

/-- The everywhere-empty page table. -/
def emptyPT : PageTable := fun _ => none

/-- Witness for C7 at the console page starting from the empty table. -/
theorem kernel_start_pagetable_spec_witness :
    CONSOLE_ADDR % PAGESIZE = 0 ∧ CONSOLE_ADDR < MEMSIZE_PHYSICAL ∧
    ∃ e, kernel_start_pagetable emptyPT CONSOLE_ADDR = some e ∧
      e.pa = CONSOLE_ADDR ∧
      (CONSOLE_ADDR = 0 → e.perms = 0) ∧
      (CONSOLE_ADDR = CONSOLE_ADDR →
        e.perms &&& PTE_P ≠ 0 ∧ e.perms &&& PTE_W ≠ 0 ∧ e.perms &&& PTE_U ≠ 0) ∧
      (CONSOLE_ADDR ≠ 0 → CONSOLE_ADDR ≠ CONSOLE_ADDR →
        e.perms &&& PTE_P ≠ 0 ∧ e.perms &&& PTE_W ≠ 0 ∧ e.perms &&& PTE_U = 0) :=
  ⟨by decide, by decide,
   kernel_start_pagetable_spec emptyPT CONSOLE_ADDR (by decide) (by decide)⟩

/-! ## Lemmas about the segment mapping loop -/

/-- Reading the slot that `setProc` wrote. -/
theorem setProc_self (st : KernelState) (pid : Nat) (f : Proc → Proc) :
    (setProc st pid f).ptable pid = f (st.ptable pid) := by
  simp [setProc]

/-- Reading a slot that `setProc` did not write. -/
theorem setProc_other (st : KernelState) (pid q : Nat) (f : Proc → Proc)
    (h : q ≠ pid) : (setProc st pid f).ptable q = st.ptable q := by
  simp [setProc, h]

/-- The segment mapping loop succeeds exactly when every visited page
address lies in the window, no two visited addresses share a physical
page, and every visited page starts unowned. -/
theorem allocMapPages_isSome (first last tid : Nat) :
    ∀ (pages : List Nat) (st : KernelState),
      (allocMapPages first last tid pages st).isSome = true ↔
        ((∀ a ∈ pages, first ≤ a ∧ a < last) ∧
         (pages.map (fun a => a / PAGESIZE)).Nodup ∧
         (∀ a ∈ pages, st.physpages (a / PAGESIZE) = 0)) := by
  intro pages
  induction pages with
  | nil =>
    intro st
    simp [allocMapPages]
  | cons a rest ih =>
    intro st
    unfold allocMapPages
    split_ifs with hw hz
    · rw [ih]
      constructor
      · rintro ⟨h1, h2, h3⟩
        refine ⟨?_, ?_, ?_⟩
        · intro b hb
          rcases List.mem_cons.mp hb with hb | hb
          · subst hb; exact hw
          · exact h1 b hb
        · rw [List.map_cons, List.nodup_cons]
          refine ⟨?_, h2⟩
          intro hmem
          obtain ⟨b, hb, hbp⟩ := List.mem_map.mp hmem
          have hzero : bumpRef st.physpages (a / PAGESIZE) (b / PAGESIZE) = 0 := h3 b hb
          simp only [bumpRef] at hzero
          rw [if_pos hbp] at hzero
          omega
        · intro b hb
          rcases List.mem_cons.mp hb with hb | hb
          · subst hb; exact hz
          · have hzero : bumpRef st.physpages (a / PAGESIZE) (b / PAGESIZE) = 0 := h3 b hb
            simp only [bumpRef] at hzero
            by_cases he : b / PAGESIZE = a / PAGESIZE
            · rw [if_pos he] at hzero
              omega
            · rw [if_neg he] at hzero
              exact hzero
      · rintro ⟨h1, h2, h3⟩
        rw [List.map_cons, List.nodup_cons] at h2
        refine ⟨fun b hb => h1 b (List.mem_cons_of_mem a hb), h2.2, ?_⟩
        intro b hb
        show bumpRef st.physpages (a / PAGESIZE) (b / PAGESIZE) = 0
        simp only [bumpRef]
        split_ifs with he
        · exact absurd (List.mem_map.mpr ⟨b, hb, he⟩) h2.1
        · exact h3 b (List.mem_cons_of_mem a hb)
    · constructor
      · intro h
        simp at h
      · rintro ⟨-, -, h3⟩
        exact absurd (h3 a (List.mem_cons_self a rest)) hz
    · constructor
      · intro h
        simp at h
      · rintro ⟨h1, -, -⟩
        exact absurd (h1 a (List.mem_cons_self a rest)) hw

/-- What the segment mapping loop leaves untouched on success: the
process table, byte memory, cursor, ticks, every other page table, the
target table outside the visited addresses, and every refcount outside
the visited pages. -/
theorem allocMapPages_preserves (first last tid : Nat) :
    ∀ (pages : List Nat) (st st' : KernelState),
      allocMapPages first last tid pages st = some st' →
      st'.ptable = st.ptable ∧ st'.mem = st.mem ∧
      st'.next_alloc_pa = st.next_alloc_pa ∧ st'.ticks = st.ticks ∧
      (∀ t, t ≠ tid → st'.tables t = st.tables t) ∧
      (∀ va, va ∉ pages → st'.tables tid va = st.tables tid va) ∧
      (∀ n, n ∉ pages.map (fun a => a / PAGESIZE) → st'.physpages n = st.physpages n) := by
  intro pages
  induction pages with
  | nil =>
    intro st st' h
    obtain rfl : st = st' := by simpa [allocMapPages] using h
    exact ⟨rfl, rfl, rfl, rfl, fun _ _ => rfl, fun _ _ => rfl, fun _ _ => rfl⟩
  | cons a rest ih =>
    intro st st' h
    unfold allocMapPages at h
    split_ifs at h with hw hz
    obtain ⟨g1, g2, g3, g4, g5, g6, g7⟩ := ih _ _ h
    refine ⟨g1, g2, g3, g4, ?_, ?_, ?_⟩
    · intro t ht
      rw [g5 t ht]
      simp [ht]
    · intro va hva
      rw [g6 va (fun hm => hva (List.mem_cons_of_mem a hm))]
      have hne : va ≠ a := by
        intro he
        exact hva (by rw [he]; exact List.mem_cons_self a rest)
      show (fun t => if t = tid then ptmap (st.tables t) a a (PTE_P ||| PTE_W ||| PTE_U)
              else st.tables t) tid va = st.tables tid va
      simp [ptmap, hne]
    · intro n hn
      rw [g7 n (fun hm => hn (List.mem_cons_of_mem _ hm))]
      have hne : n ≠ a / PAGESIZE := by
        intro he
        exact hn (by simp [he])
      show bumpRef st.physpages (a / PAGESIZE) n = st.physpages n
      simp [bumpRef, hne]

/-- Refcounts never decrease through the segment mapping loop. -/
theorem allocMapPages_mono (first last tid : Nat) :
    ∀ (pages : List Nat) (st st' : KernelState),
      allocMapPages first last tid pages st = some st' →
      ∀ n, st.physpages n ≤ st'.physpages n := by
  intro pages
  induction pages with
  | nil =>
    intro st st' h n
    obtain rfl : st = st' := by simpa [allocMapPages] using h
    exact le_rfl
  | cons a rest ih =>
    intro st st' h n
    unfold allocMapPages at h
    split_ifs at h with hw hz
    refine le_trans ?_ (ih _ _ h n)
    simp only [bumpRef]
    split_ifs <;> omega

/-- Every page address visited by a successful run of the segment
mapping loop ends up identity-mapped user-writable in the target
table. -/
theorem allocMapPages_mapped (first last tid : Nat) :
    ∀ (pages : List Nat) (st st' : KernelState),
      allocMapPages first last tid pages st = some st' →
      ∀ a ∈ pages, st'.tables tid a = some ⟨a, PTE_P ||| PTE_W ||| PTE_U⟩ := by
  intro pages
  induction pages with
  | nil =>
    intro st st' h a ha
    exact absurd ha (List.not_mem_nil a)
  | cons a rest ih =>
    intro st st' h b hb
    unfold allocMapPages at h
    split_ifs at h with hw hz
    rcases List.mem_cons.mp hb with hbe | hbr
    · subst hbe
      by_cases hbr : b ∈ rest
      · exact ih _ _ h b hbr
      · obtain ⟨-, -, -, -, -, g6, -⟩ := allocMapPages_preserves first last tid rest _ _ h
        rw [g6 b hbr]
        simp [ptmap]
    · exact ih _ _ h b hbr

/-- Every visited physical page has positive refcount after a
successful run of the segment mapping loop. -/
theorem allocMapPages_pos (first last tid : Nat) :
    ∀ (pages : List Nat) (st st' : KernelState),
      allocMapPages first last tid pages st = some st' →
      ∀ n ∈ pages.map (fun a => a / PAGESIZE), 1 ≤ st'.physpages n := by
  intro pages
  induction pages with
  | nil =>
    intro st st' h n hn
    exact absurd hn (List.not_mem_nil n)
  | cons a rest ih =>
    intro st st' h n hn
    unfold allocMapPages at h
    split_ifs at h with hw hz
    rcases List.mem_cons.mp (List.map_cons _ _ _ ▸ hn) with hne | hnr
    · subst hne
      refine le_trans ?_ (allocMapPages_mono first last tid rest _ _ h _)
      simp [bumpRef]
    · exact ih _ _ h n hnr

/-! ## Lemmas about the tail of process_setup -/

/-- The tail of `process_setup` succeeds exactly when the stack page is
unowned when it is reached. -/
theorem process_setup_finish_isSome (st1 : KernelState) (pid : Nat) (pgm : ProgramImage) :
    (process_setup_finish st1 pid pgm).isSome = true ↔
      st1.physpages ((proc_last_addr pid - PAGESIZE) / PAGESIZE) = 0 := by
  simp only [process_setup_finish]
  split_ifs with h
  · exact iff_of_true rfl h
  · exact iff_of_false (by simp) h

/-- What a successful tail of `process_setup` produces: the descriptor
is runnable with the image's entry point, the stack pointer at the
window's end and an untouched `pagetable` field; other descriptors are
untouched; the stack page is identity-mapped user-writable in the
kernel table, which is otherwise untouched. -/
theorem process_setup_finish_some (st1 : KernelState) (pid : Nat) (pgm : ProgramImage)
    (st' : KernelState) (h : process_setup_finish st1 pid pgm = some st') :
    (st'.ptable pid).state = PState.P_RUNNABLE ∧
    (st'.ptable pid).regs.reg_rip = pgm.entry ∧
    (st'.ptable pid).regs.reg_rsp = (proc_last_addr pid - PAGESIZE) + PAGESIZE ∧
    (st'.ptable pid).pagetable = (st1.ptable pid).pagetable ∧
    (∀ q, q ≠ pid → st'.ptable q = st1.ptable q) ∧
    st'.tables kernel_pagetable (proc_last_addr pid - PAGESIZE) =
      some ⟨proc_last_addr pid - PAGESIZE, PTE_P ||| PTE_W ||| PTE_U⟩ ∧
    (∀ va, va ≠ proc_last_addr pid - PAGESIZE →
      st'.tables kernel_pagetable va = st1.tables kernel_pagetable va) ∧
    (∀ t, t ≠ kernel_pagetable → st'.tables t = st1.tables t) := by
  simp only [process_setup_finish] at h
  split_ifs at h with hz
  obtain rfl := Option.some.inj h
  refine ⟨?_, ?_, ?_, ?_, ?_, ?_, ?_, ?_⟩
  · simp [setProc]
  · simp [setProc]
  · simp [setProc]
  · simp [setProc]
  · intro q hq
    simp [setProc, hq]
  · simp [setProc, ptmap]
  · intro va hva
    simp [setProc, ptmap, hva]
  · intro t ht
    simp [setProc, ht]

/-! ## Claim C4: process_setup -/

/-- The claim's precondition for `process_setup`: every touched segment
page lies in the process's window, no two touched pages (segment pages
and the stack page together) share a physical page, and every touched
page starts with refcount 0. -/
def setupOK (st : KernelState) (pid : Nat) (pgm : ProgramImage) : Prop :=
  (∀ a ∈ imagePages pgm, proc_first_addr pid ≤ a ∧ a < proc_last_addr pid) ∧
  ((imagePages pgm).map (fun a => a / PAGESIZE)).Nodup ∧
  (∀ a ∈ imagePages pgm, st.physpages (a / PAGESIZE) = 0) ∧
  (proc_last_addr pid - PAGESIZE) / PAGESIZE ∉
    (imagePages pgm).map (fun a => a / PAGESIZE) ∧
  st.physpages ((proc_last_addr pid - PAGESIZE) / PAGESIZE) = 0

/-- C4: whenever every touched page is inside the window
`PROC_START_ADDR + (pid-1)*PROC_SIZE .. PROC_START_ADDR + pid*PROC_SIZE`
and unowned, `process_setup` succeeds and ends with the descriptor
runnable, the instruction pointer at the image's entry point, the stack
page mapped user-writable at the topmost page of the window, and the
stack pointer at the window's end; when either precondition fails, a
fatal assertion fires (`none`), so the process never becomes
runnable. -/
theorem process_setup_spec (st : KernelState) (pid : Nat) (pgm : ProgramImage)
    (hpid : 1 ≤ pid) :
    ((process_setup st pid pgm).isSome = true ↔ setupOK st pid pgm) ∧
    (∀ st', process_setup st pid pgm = some st' →
      (st'.ptable pid).state = PState.P_RUNNABLE ∧
      (st'.ptable pid).regs.reg_rip = pgm.entry ∧
      (st'.ptable pid).regs.reg_rsp = proc_last_addr pid ∧
      (st'.ptable pid).pagetable = kernel_pagetable ∧
      st'.tables ((st'.ptable pid).pagetable) (proc_last_addr pid - PAGESIZE) =
        some ⟨proc_last_addr pid - PAGESIZE, PTE_P ||| PTE_W ||| PTE_U⟩) ∧
    (¬ setupOK st pid pgm → process_setup st pid pgm = none) := by
  have hpage : PAGESIZE ≤ proc_last_addr pid := by
    simp only [proc_last_addr, PROC_START_ADDR, PROC_SIZE, PAGESIZE]
    omega
  have hps : process_setup st pid pgm =
      match allocMapPages (proc_first_addr pid) (proc_last_addr pid) kernel_pagetable
        (imagePages pgm)
        (setProc st pid (fun p => { init_process p with pagetable := kernel_pagetable })) with
      | none => none
      | some st1 => process_setup_finish st1 pid pgm := rfl
  have hIff : (process_setup st pid pgm).isSome = true ↔ setupOK st pid pgm := by
    cases hA : allocMapPages (proc_first_addr pid) (proc_last_addr pid) kernel_pagetable
        (imagePages pgm)
        (setProc st pid (fun p => { init_process p with pagetable := kernel_pagetable })) with
    | none =>
      rw [hA] at hps
      rw [hps]
      constructor
      · intro h
        simp at h
      · intro hOK
        have : (allocMapPages (proc_first_addr pid) (proc_last_addr pid) kernel_pagetable
            (imagePages pgm)
            (setProc st pid
              (fun p => { init_process p with pagetable := kernel_pagetable }))).isSome
            = true :=
          (allocMapPages_isSome _ _ _ _ _).mpr ⟨hOK.1, hOK.2.1, hOK.2.2.1⟩
        rw [hA] at this
        simp at this
    | some st1 =>
      rw [hA] at hps
      rw [hps, process_setup_finish_isSome]
      have hcond := (allocMapPages_isSome _ _ _ _ _).mp (by rw [hA]; rfl)
      obtain ⟨-, -, -, -, -, -, g7⟩ := allocMapPages_preserves _ _ _ _ _ _ hA
      constructor
      · intro hz1
        have hnot : (proc_last_addr pid - PAGESIZE) / PAGESIZE ∉
            (imagePages pgm).map (fun a => a / PAGESIZE) := by
          intro hmem
          have := allocMapPages_pos _ _ _ _ _ _ hA _ hmem
          omega
        refine ⟨hcond.1, hcond.2.1, hcond.2.2, hnot, ?_⟩
        have := g7 _ hnot
        rw [this] at hz1
        exact hz1
      · intro hOK
        rw [g7 _ hOK.2.2.2.1]
        exact hOK.2.2.2.2
  refine ⟨hIff, ?_, ?_⟩
  · intro st' h'
    rw [hps] at h'
    cases hA : allocMapPages (proc_first_addr pid) (proc_last_addr pid) kernel_pagetable
        (imagePages pgm)
        (setProc st pid (fun p => { init_process p with pagetable := kernel_pagetable })) with
    | none =>
      rw [hA] at h'
      exact absurd h' (by simp)
    | some st1 =>
      rw [hA] at h'
      obtain ⟨f1, f2, f3, f4, -, f6, -, -⟩ :=
        process_setup_finish_some st1 pid pgm st' h'
      obtain ⟨g1, -, -, -, -, -, -⟩ := allocMapPages_preserves _ _ _ _ _ _ hA
      have hpt : (st'.ptable pid).pagetable = kernel_pagetable := by
        rw [f4, g1]
        simp [setProc]
      refine ⟨f1, f2, ?_, hpt, ?_⟩
      · rw [f3]
        omega
      · rw [hpt]
        exact f6
  · intro hno
    cases hE : process_setup st pid pgm with
    | none => rfl
    | some s => exact absurd (hIff.mp (by rw [hE]; rfl)) hno

/-- A concrete one-segment program image inside process 1's window. -/
def pgmEx : ProgramImage := ⟨[⟨0x100000, 8, [1, 2, 3]⟩], 0x100000⟩

/-- Witness for C4: loading the concrete image as process 1 from the
all-free state succeeds, and the precondition holds there. -/
theorem process_setup_spec_witness :
    setupOK stZero 1 pgmEx ∧ (process_setup stZero 1 pgmEx).isSome = true := by
  have hOK : setupOK stZero 1 pgmEx := by
    unfold setupOK
    refine ⟨?_, ?_, ?_, ?_, ?_⟩ <;> decide
  exact ⟨hOK, (process_setup_spec stZero 1 pgmEx (by decide)).1.mpr hOK⟩

/-- A successful `process_setup` had every touched segment page inside
the process's window. -/
theorem process_setup_some_window (st : KernelState) (pid : Nat) (pgm : ProgramImage)
    (st' : KernelState) (h : process_setup st pid pgm = some st') :
    ∀ a ∈ imagePages pgm, proc_first_addr pid ≤ a ∧ a < proc_last_addr pid := by
  have hps : process_setup st pid pgm =
      match allocMapPages (proc_first_addr pid) (proc_last_addr pid) kernel_pagetable
        (imagePages pgm)
        (setProc st pid (fun p => { init_process p with pagetable := kernel_pagetable })) with
      | none => none
      | some st1 => process_setup_finish st1 pid pgm := rfl
  cases hA : allocMapPages (proc_first_addr pid) (proc_last_addr pid) kernel_pagetable
      (imagePages pgm)
      (setProc st pid (fun p => { init_process p with pagetable := kernel_pagetable })) with
  | none =>
    rw [hA] at hps
    rw [hps] at h
    exact absurd h (by simp)
  | some st1 =>
    exact ((allocMapPages_isSome _ _ _ _ _).mp (by rw [hA]; rfl)).1

/-- What a successful `process_setup` does to the descriptor and the
kernel page table: the descriptor points at `kernel_pagetable`, other
descriptors are untouched, every touched page (segment pages and the
stack page) is identity-mapped user-writable in the kernel table, and
the kernel table is unchanged elsewhere. -/
theorem process_setup_some_tables (st : KernelState) (pid : Nat) (pgm : ProgramImage)
    (st' : KernelState) (h : process_setup st pid pgm = some st') :
    (st'.ptable pid).pagetable = kernel_pagetable ∧
    (∀ r, r ≠ pid → st'.ptable r = st.ptable r) ∧
    (∀ a, (a ∈ imagePages pgm ∨ a = proc_last_addr pid - PAGESIZE) →
      st'.tables kernel_pagetable a = some ⟨a, PTE_P ||| PTE_W ||| PTE_U⟩) ∧
    (∀ va, va ∉ imagePages pgm → va ≠ proc_last_addr pid - PAGESIZE →
      st'.tables kernel_pagetable va = st.tables kernel_pagetable va) := by
  have hps : process_setup st pid pgm =
      match allocMapPages (proc_first_addr pid) (proc_last_addr pid) kernel_pagetable
        (imagePages pgm)
        (setProc st pid (fun p => { init_process p with pagetable := kernel_pagetable })) with
      | none => none
      | some st1 => process_setup_finish st1 pid pgm := rfl
  rw [hps] at h
  cases hA : allocMapPages (proc_first_addr pid) (proc_last_addr pid) kernel_pagetable
      (imagePages pgm)
      (setProc st pid (fun p => { init_process p with pagetable := kernel_pagetable })) with
  | none =>
    rw [hA] at h
    exact absurd h (by simp)
  | some st1 =>
    rw [hA] at h
    have h2 : process_setup_finish st1 pid pgm = some st' := h
    obtain ⟨-, -, -, f4, f5, f6, f7, -⟩ := process_setup_finish_some st1 pid pgm st' h2
    obtain ⟨g1, -, -, -, -, g6, -⟩ := allocMapPages_preserves _ _ _ _ _ _ hA
    have hmapped := allocMapPages_mapped _ _ _ _ _ _ hA
    refine ⟨?_, ?_, ?_, ?_⟩
    · rw [f4, g1]
      simp [setProc]
    · intro r hr
      rw [f5 r hr, g1]
      simp [setProc, hr]
    · intro a ha
      by_cases hstk : a = proc_last_addr pid - PAGESIZE
      · rw [hstk]
        exact f6
      · rcases ha with ha | ha
        · rw [f7 a hstk]
          exact hmapped a ha
        · exact absurd ha hstk
    · intro va hva1 hva2
      rw [f7 va hva2, g6 va hva1]
      rfl

/-! ## Claim C10: one shared kernel page table for all processes -/

/-- C10: after loading two distinct processes in sequence, both
descriptors' `pagetable` fields are the single shared kernel page
table, and every user-accessible mapping installed while loading the
first process (each of its segment pages and its stack page) is present
user-writable in the table the second process's descriptor points
at. -/
theorem shared_kernel_pagetable_spec (st st1 st2 : KernelState) (p q : Nat)
    (pgmp pgmq : ProgramImage) (hp : 1 ≤ p) (hq : 1 ≤ q) (hpq : p ≠ q)
    (h1 : process_setup st p pgmp = some st1)
    (h2 : process_setup st1 q pgmq = some st2) :
    (st2.ptable p).pagetable = kernel_pagetable ∧
    (st2.ptable q).pagetable = kernel_pagetable ∧
    (st2.ptable p).pagetable = (st2.ptable q).pagetable ∧
    (∀ a, (a ∈ imagePages pgmp ∨ a = proc_last_addr p - PAGESIZE) →
      st2.tables ((st2.ptable q).pagetable) a =
        some ⟨a, PTE_P ||| PTE_W ||| PTE_U⟩) := by
  obtain ⟨t1a, t1b, t1c, t1d⟩ := process_setup_some_tables st p pgmp st1 h1
  obtain ⟨t2a, t2b, t2c, t2d⟩ := process_setup_some_tables st1 q pgmq st2 h2
  have hw1 := process_setup_some_window st p pgmp st1 h1
  have hw2 := process_setup_some_window st1 q pgmq st2 h2
  have hpg : (st2.ptable p).pagetable = kernel_pagetable := by
    rw [t2b p hpq, t1a]
  refine ⟨hpg, t2a, by rw [hpg, t2a], ?_⟩
  intro a ha
  rw [t2a]
  have hain : proc_first_addr p ≤ a ∧ a < proc_last_addr p := by
    rcases ha with ha | ha
    · exact hw1 a ha
    · have hstk : proc_first_addr p ≤ proc_last_addr p - PAGESIZE ∧
          proc_last_addr p - PAGESIZE < proc_last_addr p := by
        simp only [proc_first_addr, proc_last_addr, PROC_START_ADDR, PROC_SIZE, PAGESIZE]
        omega
      rw [ha]
      exact hstk
  have hnotq : a ∉ imagePages pgmq := by
    intro hmem
    have haq := hw2 a hmem
    simp only [proc_first_addr, proc_last_addr, PROC_START_ADDR, PROC_SIZE, PAGESIZE]
      at hain haq
    omega
  have hnots : a ≠ proc_last_addr q - PAGESIZE := by
    intro he
    rw [he] at hain
    simp only [proc_first_addr, proc_last_addr, PROC_START_ADDR, PROC_SIZE, PAGESIZE]
      at hain
    omega
  rw [t2d a hnotq hnots]
  exact t1c a ha

/-- A concrete one-segment program image inside process 2's window. -/
def pgmEx2 : ProgramImage := ⟨[⟨0x140000, 8, [4, 5, 6]⟩], 0x140000⟩

/-- Witness for C10: loading the two concrete images as processes 1 and
2 from the all-free state leaves both descriptors on the kernel table,
with process 1's stack page visible through process 2's table. -/
theorem shared_kernel_pagetable_spec_witness :
    ∃ st1 st2,
      process_setup stZero 1 pgmEx = some st1 ∧
      process_setup st1 2 pgmEx2 = some st2 ∧
      (st2.ptable 1).pagetable = kernel_pagetable ∧
      (st2.ptable 2).pagetable = kernel_pagetable ∧
      st2.tables ((st2.ptable 2).pagetable) (proc_last_addr 1 - PAGESIZE) =
        some ⟨proc_last_addr 1 - PAGESIZE, PTE_P ||| PTE_W ||| PTE_U⟩ := by
  obtain ⟨st1, hst1⟩ : ∃ s, process_setup stZero 1 pgmEx = some s :=
    Option.isSome_iff_exists.mp (by decide)
  obtain ⟨st2, hst2⟩ : ∃ s, process_setup st1 2 pgmEx2 = some s := by
    refine Option.isSome_iff_exists.mp ?_
    rw [show process_setup st1 2 pgmEx2 =
      process_setup (Option.getD (process_setup stZero 1 pgmEx) stZero) 2 pgmEx2 by
        rw [hst1]; rfl]
    decide
  obtain ⟨c1, c2, -, c4⟩ :=
    shared_kernel_pagetable_spec stZero st1 st2 1 2 pgmEx pgmEx2
      (by decide) (by decide) (by decide) hst1 hst2
  exact ⟨st1, st2, hst1, hst2, c1, c2, c4 _ (Or.inr rfl)⟩

/-! ## Lemmas about the exception dispatcher -/

/-- Value of `exception` on a timer interrupt. -/
theorem exception_timer (st : KernelState) (curpid : Nat) (regs : Regstate) (cr2 : Nat)
    (ht : regs.reg_intno = INT_IRQ + IRQ_TIMER) :
    exception st curpid regs cr2 =
      ({ setRegs st curpid regs with ticks := (setRegs st curpid regs).ticks + 1 },
       Control.toScheduler, none) := by
  simp only [exception]
  rw [if_pos ht]

/-- Value of `exception` on a kernel-mode page fault. -/
theorem exception_kernelPF (st : KernelState) (curpid : Nat) (regs : Regstate) (cr2 : Nat)
    (hpf : regs.reg_intno = INT_PF) (hu : regs.reg_errcode &&& PTE_U = 0) :
    exception st curpid regs cr2 = (setRegs st curpid regs, Control.halt, none) := by
  have ht : ¬ regs.reg_intno = INT_IRQ + IRQ_TIMER := by
    rw [hpf]; decide
  simp only [exception]
  rw [if_neg ht, if_pos hpf, if_pos hu]

/-- Value of `exception` on a user-mode page fault. -/
theorem exception_userPF (st : KernelState) (curpid : Nat) (regs : Regstate) (cr2 : Nat)
    (hpf : regs.reg_intno = INT_PF) (hu : ¬ regs.reg_errcode &&& PTE_U = 0) :
    exception st curpid regs cr2 =
      (setProc (setRegs st curpid regs) curpid (fun p => { p with state := PState.P_FAULTED }),
       exceptionEpilogue
         (setProc (setRegs st curpid regs) curpid (fun p => { p with state := PState.P_FAULTED }))
         curpid,
       some ⟨(st.ptable curpid).pid, cr2,
             decide (regs.reg_errcode &&& PTE_W ≠ 0),
             decide (regs.reg_errcode &&& PTE_P ≠ 0),
             regs.reg_rip⟩) := by
  have ht : ¬ regs.reg_intno = INT_IRQ + IRQ_TIMER := by
    rw [hpf]; decide
  simp only [exception]
  rw [if_neg ht, if_pos hpf, if_neg hu]
  simp [setRegs, setProc]

/-- Value of `exception` on an interrupt that is neither the timer nor
a page fault. -/
theorem exception_other (st : KernelState) (curpid : Nat) (regs : Regstate) (cr2 : Nat)
    (ht : ¬ regs.reg_intno = INT_IRQ + IRQ_TIMER) (hpf : ¬ regs.reg_intno = INT_PF) :
    exception st curpid regs cr2 = (setRegs st curpid regs, Control.halt, none) := by
  simp only [exception]
  rw [if_neg ht, if_neg hpf]

/-- The state the user-page-fault path leaves the current descriptor
in is `P_FAULTED`. -/
theorem exception_faulted_state (st : KernelState) (curpid : Nat) (regs : Regstate) :
    ((setProc (setRegs st curpid regs) curpid
        (fun p => { p with state := PState.P_FAULTED })).ptable curpid).state =
      PState.P_FAULTED := by
  simp [setProc]

/-- Whenever the dispatcher resumes a process directly, that process's
state (in the dispatcher's final state) is runnable. -/
theorem exception_resume_runnable (st : KernelState) (curpid : Nat) (regs : Regstate)
    (cr2 : Nat) (p : Nat)
    (h : (exception st curpid regs cr2).2.1 = Control.resume p) :
    (((exception st curpid regs cr2).1).ptable p).state = PState.P_RUNNABLE := by
  by_cases ht : regs.reg_intno = INT_IRQ + IRQ_TIMER
  · rw [exception_timer st curpid regs cr2 ht] at h
    exact absurd h (by simp)
  · by_cases hpf : regs.reg_intno = INT_PF
    · by_cases hu : regs.reg_errcode &&& PTE_U = 0
      · rw [exception_kernelPF st curpid regs cr2 hpf hu] at h
        exact absurd h (by simp)
      · rw [exception_userPF st curpid regs cr2 hpf hu] at h ⊢
        simp only [exceptionEpilogue] at h ⊢
        split_ifs at h with hr
        obtain rfl := Control.resume.inj h
        exact hr
    · rw [exception_other st curpid regs cr2 ht hpf] at h
      exact absurd h (by simp)

/-! ## Claim C5: the exception dispatcher -/

/-- C5: a page fault with the user bit clear in the error code halts
the machine; a user-triggered page fault sets only the current
process's state to `P_FAULTED` (with the read/write and
protection/missing-page classification taken from the error code) and
falls through to the scheduler; any interrupt other than the timer or
a page fault halts the machine; and the dispatcher's epilogue resumes
the current process directly exactly when its state is still
runnable (never otherwise - in particular a resumed process is always
runnable in the final state). -/
theorem exception_spec (st : KernelState) (curpid : Nat) (regs : Regstate) (cr2 : Nat) :
    (regs.reg_intno = INT_PF → regs.reg_errcode &&& PTE_U = 0 →
      (exception st curpid regs cr2).2.1 = Control.halt) ∧
    (regs.reg_intno = INT_PF → regs.reg_errcode &&& PTE_U ≠ 0 →
      (exception st curpid regs cr2).2.1 = Control.toScheduler ∧
      (((exception st curpid regs cr2).1).ptable curpid).state = PState.P_FAULTED ∧
      (∀ q, q ≠ curpid →
        ((exception st curpid regs cr2).1).ptable q = st.ptable q) ∧
      (exception st curpid regs cr2).2.2 =
        some ⟨(st.ptable curpid).pid, cr2,
              decide (regs.reg_errcode &&& PTE_W ≠ 0),
              decide (regs.reg_errcode &&& PTE_P ≠ 0),
              regs.reg_rip⟩) ∧
    (regs.reg_intno ≠ INT_IRQ + IRQ_TIMER → regs.reg_intno ≠ INT_PF →
      (exception st curpid regs cr2).2.1 = Control.halt) ∧
    (∀ p, (exception st curpid regs cr2).2.1 = Control.resume p →
      (((exception st curpid regs cr2).1).ptable p).state = PState.P_RUNNABLE) ∧
    (∀ s k, exceptionEpilogue s k = Control.resume k ↔
      (s.ptable k).state = PState.P_RUNNABLE) := by
  refine ⟨?_, ?_, ?_, ?_, ?_⟩
  · intro hpf hu
    rw [exception_kernelPF st curpid regs cr2 hpf hu]
  · intro hpf hu
    rw [exception_userPF st curpid regs cr2 hpf hu]
    have hF := exception_faulted_state st curpid regs
    refine ⟨?_, hF, ?_, rfl⟩
    · show exceptionEpilogue _ curpid = Control.toScheduler
      rw [exceptionEpilogue, if_neg]
      rw [hF]
      simp
    · intro q hq
      simp [setProc, setRegs, hq]
  · intro ht hpf
    rw [exception_other st curpid regs cr2 ht hpf]
  · exact fun p => exception_resume_runnable st curpid regs cr2 p
  · intro s k
    rw [exceptionEpilogue]
    split_ifs with hr
    · exact iff_of_true rfl hr
    · exact iff_of_false (by simp) hr

/-- Concrete register snapshot of a user write fault to a missing
page. -/
def regsUserPF : Regstate := ⟨0, 0, 0, 4096, 0, 14, 6⟩

/-- Witness for C5: a concrete user page fault marks process 1
`P_FAULTED` and falls through to the scheduler. -/
theorem exception_spec_witness :
    (exception stZero 1 regsUserPF 64).2.1 = Control.toScheduler ∧
    (((exception stZero 1 regsUserPF 64).1).ptable 1).state = PState.P_FAULTED :=
  ⟨((exception_spec stZero 1 regsUserPF 64).2.1 (by decide) (by decide)).1,
   ((exception_spec stZero 1 regsUserPF 64).2.1 (by decide) (by decide)).2.1⟩

/-! ## Lemmas about the scheduler scan -/

/-- Soundness of the scheduler scan: a chosen slot is runnable, and it
is the first runnable slot in the visiting order `(pid+1) % NPROC`,
`(pid+2) % NPROC`, ... -/
theorem scheduleFrom_some (st : KernelState) :
    ∀ fuel pid r, scheduleFrom st fuel pid = some r →
      (st.ptable r).state = PState.P_RUNNABLE ∧
      ∃ i, i < fuel ∧ r = (pid + 1 + i) % NPROC ∧
        ∀ j, j < i → (st.ptable ((pid + 1 + j) % NPROC)).state ≠ PState.P_RUNNABLE := by
  intro fuel
  induction fuel with
  | zero =>
    intro pid r h
    simp [scheduleFrom] at h
  | succ n ih =>
    intro pid r h
    unfold scheduleFrom at h
    split_ifs at h with hr
    · obtain rfl := Option.some.inj h
      exact ⟨hr, 0, Nat.succ_pos n, rfl, fun j hj => absurd hj (Nat.not_lt_zero j)⟩
    · obtain ⟨g1, i, hi, hie, hmin⟩ := ih ((pid + 1) % NPROC) r h
      refine ⟨g1, i + 1, by omega, ?_, ?_⟩
      · rw [hie]
        simp only [NPROC]
        omega
      · intro j hj
        cases j with
        | zero =>
          intro hcon
          exact hr (by simpa using hcon)
        | succ m =>
          have heq : ((pid + 1) % NPROC + 1 + m) % NPROC = (pid + 1 + (m + 1)) % NPROC := by
            simp only [NPROC]
            omega
          rw [← heq]
          exact hmin m (by omega)

/-- Completeness of the scheduler scan: when some slot in the next
`fuel` visits is runnable, the scan finds one. -/
theorem scheduleFrom_isSome (st : KernelState) :
    ∀ fuel pid,
      (∃ i, i < fuel ∧ (st.ptable ((pid + 1 + i) % NPROC)).state = PState.P_RUNNABLE) →
      (scheduleFrom st fuel pid).isSome = true := by
  intro fuel
  induction fuel with
  | zero =>
    intro pid h
    obtain ⟨i, hi, -⟩ := h
    exact absurd hi (Nat.not_lt_zero i)
  | succ n ih =>
    intro pid h
    unfold scheduleFrom
    split_ifs with hr
    · rfl
    · apply ih
      obtain ⟨i, hi, hrun⟩ := h
      have hiz : i ≠ 0 := by
        intro he
        subst he
        exact hr (by simpa using hrun)
      refine ⟨i - 1, by omega, ?_⟩
      have heq : ((pid + 1) % NPROC + 1 + (i - 1)) % NPROC = (pid + 1 + i) % NPROC := by
        simp only [NPROC]
        omega
      rw [heq]
      exact hrun

/-- The scheduler scan picks the slot right after the current one when
that slot is runnable. -/
theorem scheduleFrom_first (st : KernelState) (fuel pid : Nat) (hf : 1 ≤ fuel)
    (hr : (st.ptable ((pid + 1) % NPROC)).state = PState.P_RUNNABLE) :
    scheduleFrom st fuel pid = some ((pid + 1) % NPROC) := by
  obtain ⟨n, rfl⟩ : ∃ n, fuel = n + 1 := ⟨fuel - 1, by omega⟩
  unfold scheduleFrom
  rw [if_pos hr]

/-! ## Claim C6: round-robin scheduling -/

/-- C6: with at least one runnable slot, the scheduler transfers the
CPU to the first runnable slot strictly after the current one in wrap
order (equivalently, the lowest-indexed runnable slot greater than `k`,
wrapping modulo `NPROC`); and with every slot runnable, `NPROC`
successive invocations visit the slots `(k+1) % NPROC`,
`(k+2) % NPROC`, ... with no slot repeated and every slot visited. -/
theorem schedule_spec (st : KernelState) (k : Nat) (hk : k < NPROC)
    (hex : ∃ j, j < NPROC ∧ (st.ptable j).state = PState.P_RUNNABLE) :
    (∃ i, i < NPROC ∧ schedule st k = some ((k + 1 + i) % NPROC) ∧
      (st.ptable ((k + 1 + i) % NPROC)).state = PState.P_RUNNABLE ∧
      ∀ j, j < i → (st.ptable ((k + 1 + j) % NPROC)).state ≠ PState.P_RUNNABLE) ∧
    ((∀ j, j < NPROC → (st.ptable j).state = PState.P_RUNNABLE) →
      scheduleSeq st k NPROC = (List.range NPROC).map (fun i => (k + 1 + i) % NPROC) ∧
      (scheduleSeq st k NPROC).Nodup ∧
      (∀ j, j < NPROC → j ∈ scheduleSeq st k NPROC)) := by
  constructor
  · obtain ⟨j, hj, hrun⟩ := hex
    have hsome : (schedule st k).isSome = true := by
      apply scheduleFrom_isSome
      refine ⟨(j + NPROC - (k + 1)) % NPROC, ?_, ?_⟩
      · simp only [NPROC]
        omega
      · have : (k + 1 + (j + NPROC - (k + 1)) % NPROC) % NPROC = j := by
          simp only [NPROC] at hj hk ⊢
          omega
        rw [this]
        exact hrun
    obtain ⟨r, hr⟩ := Option.isSome_iff_exists.mp hsome
    obtain ⟨g1, i, hi, hie, hmin⟩ := scheduleFrom_some st NPROC k r hr
    refine ⟨i, hi, ?_, ?_, hmin⟩
    · rw [hr, hie]
    · rw [← hie]
      exact g1
  · intro hall
    have hsched : ∀ k', schedule st k' = some ((k' + 1) % NPROC) := by
      intro k'
      apply scheduleFrom_first
      · simp [NPROC]
      · exact hall _ (Nat.mod_lt _ (by simp [NPROC]))
    have hseq : ∀ n k', scheduleSeq st k' n =
        (List.range n).map (fun i => (k' + 1 + i) % NPROC) := by
      intro n
      induction n with
      | zero => intro k'; rfl
      | succ m ih =>
        intro k'
        unfold scheduleSeq
        rw [hsched k']
        show ((k' + 1) % NPROC) :: scheduleSeq st ((k' + 1) % NPROC) m =
          List.map (fun i => (k' + 1 + i) % NPROC) (List.range (m + 1))
        rw [ih ((k' + 1) % NPROC), List.range_succ_eq_map, List.map_cons, List.map_map]
        congr 1
        apply List.map_congr_left
        intro i hi
        have him : i < m := List.mem_range.mp hi
        simp only [Function.comp_apply, NPROC]
        omega
    have hinj : ∀ x, x < NPROC → ∀ y, y < NPROC →
        (k + 1 + x) % NPROC = (k + 1 + y) % NPROC → x = y := by
      intro x hx y hy he
      simp only [NPROC] at hx hy he
      omega
    refine ⟨hseq NPROC k, ?_, ?_⟩
    · rw [hseq NPROC k]
      refine List.Nodup.map_on ?_ (List.nodup_range NPROC)
      intro x hx y hy he
      exact hinj x (List.mem_range.mp hx) y (List.mem_range.mp hy) he
    · intro j hj
      rw [hseq NPROC k]
      refine List.mem_map.mpr ⟨(j + NPROC - (k + 1)) % NPROC, ?_, ?_⟩
      · refine List.mem_range.mpr ?_
        simp only [NPROC]
        omega
      · simp only [NPROC] at hj hk ⊢
        omega

/-- A concrete process table with only slot 3 runnable. -/
def stSched : KernelState :=
  { stZero with
      ptable := fun q =>
        if q = 3 then { procZero with state := PState.P_RUNNABLE } else procZero }

/-- Witness for C6: from current slot 0, the scheduler picks slot 3,
the first runnable slot in wrap order. -/
theorem schedule_spec_witness :
    ∃ i, i < NPROC ∧ schedule stSched 0 = some ((0 + 1 + i) % NPROC) ∧
      (stSched.ptable ((0 + 1 + i) % NPROC)).state = PState.P_RUNNABLE ∧
      ∀ j, j < i → (stSched.ptable ((0 + 1 + j) % NPROC)).state ≠ PState.P_RUNNABLE :=
  (schedule_spec stSched 0 (by decide) ⟨3, by decide, by decide⟩).1

/-! ## Claim C9: the CPU is only ever transferred to runnable processes -/

/-- A successful `process_setup` leaves the loaded descriptor
runnable. -/
theorem process_setup_some_runnable (st : KernelState) (pid : Nat) (pgm : ProgramImage)
    (st' : KernelState) (h : process_setup st pid pgm = some st') :
    (st'.ptable pid).state = PState.P_RUNNABLE := by
  have hps : process_setup st pid pgm =
      match allocMapPages (proc_first_addr pid) (proc_last_addr pid) kernel_pagetable
        (imagePages pgm)
        (setProc st pid (fun p => { init_process p with pagetable := kernel_pagetable })) with
      | none => none
      | some st1 => process_setup_finish st1 pid pgm := rfl
  rw [hps] at h
  cases hA : allocMapPages (proc_first_addr pid) (proc_last_addr pid) kernel_pagetable
      (imagePages pgm)
      (setProc st pid (fun p => { init_process p with pagetable := kernel_pagetable })) with
  | none =>
    rw [hA] at h
    exact absurd h (by simp)
  | some st1 =>
    rw [hA] at h
    have h2 : process_setup_finish st1 pid pgm = some st' := h
    exact (process_setup_finish_some st1 pid pgm st' h2).1

/-- C9: `run` fires its entry assertion on every non-runnable
descriptor, yet no kernel control path reaches it with one: a slot
chosen by the scheduler is always transferred to, a process the
exception dispatcher decides to resume is always transferred to, and
the process loaded by startup (also after a second process is loaded)
is always transferred to. -/
theorem run_only_runnable_spec (st : KernelState) (curpid r : Nat) (regs : Regstate)
    (cr2 : Nat) (pgm pgm2 : ProgramImage) :
    (∀ p, (st.ptable p).state ≠ PState.P_RUNNABLE → run st p = RunResult.assertFail) ∧
    (schedule st curpid = some r → run st r = RunResult.transfer r) ∧
    (∀ p, (exception st curpid regs cr2).2.1 = Control.resume p →
      run ((exception st curpid regs cr2).1) p = RunResult.transfer p) ∧
    (∀ st', process_setup st 1 pgm = some st' → run st' 1 = RunResult.transfer 1) ∧
    (∀ st' st'', process_setup st 1 pgm = some st' →
      process_setup st' 2 pgm2 = some st'' → run st'' 1 = RunResult.transfer 1) := by
  refine ⟨?_, ?_, ?_, ?_, ?_⟩
  · intro p hp
    rw [run, if_neg hp]
  · intro h
    obtain ⟨g1, -⟩ := scheduleFrom_some st NPROC curpid r h
    rw [run, if_pos g1]
  · intro p hp
    rw [run, if_pos (exception_resume_runnable st curpid regs cr2 p hp)]
  · intro st' h
    rw [run, if_pos (process_setup_some_runnable st 1 pgm st' h)]
  · intro st' st'' h h2
    have hr1 : (st''.ptable 1).state = PState.P_RUNNABLE := by
      have hkeep := (process_setup_some_tables st' 2 pgm2 st'' h2).2.1 1 (by decide)
      rw [hkeep]
      exact process_setup_some_runnable st 1 pgm st' h
    rw [run, if_pos hr1]

/-- Witness for C9: the slot the scheduler picks in a concrete state is
transferred to without tripping the assertion, and a non-runnable slot
trips it. -/
theorem run_only_runnable_spec_witness :
    run stSched 3 = RunResult.transfer 3 ∧ run stSched 0 = RunResult.assertFail :=
  ⟨(run_only_runnable_spec stSched 0 3 regsUserPF 0 pgmEx pgmEx2).2.1 (by decide),
   (run_only_runnable_spec stSched 0 3 regsUserPF 0 pgmEx pgmEx2).1 0 (by decide)⟩
